import Mathlib

/-!
Shallow embedding of `src/chess/chess.py`: a small chess engine with a
board, per-piece candidate-move computation (only pawns are implemented),
and a turn-taking game layer.  Python exceptions are modelled with
`Except`; Python `list` indexing (including negative-index wrapping and
`IndexError`) is modelled explicitly where a claim depends on it.
-/

namespace Chess

/-- The `Color` enumeration (`Color.BLACK`, `Color.WHITE`). -/
inductive Color where
  | black
  | white
deriving DecidableEq, Repr

/-- Models `Color.inverse`: swaps black and white. -/
def Color.inverse : Color → Color
  | Color.black => Color.white
  | Color.white => Color.black

/-- Models `Color.__str__`. -/
def Color.toStr : Color → String
  | Color.black => "black"
  | Color.white => "white"

/-- The `Field` class hierarchy as a variant: `Empty` carries no color,
each piece subclass (`Pawn`, `Rook`, `King`, `Queen`, `Knight`, `Bishop`)
carries its `Color`. -/
inductive Field where
  | empty
  | pawn (color : Color)
  | rook (color : Color)
  | king (color : Color)
  | queen (color : Color)
  | knight (color : Color)
  | bishop (color : Color)
deriving DecidableEq, Repr

/-- The `color` attribute of a `Field` (`None` for `Empty`). -/
def Field.color : Field → Option Color
  | Field.empty => none
  | Field.pawn c => some c
  | Field.rook c => some c
  | Field.king c => some c
  | Field.queen c => some c
  | Field.knight c => some c
  | Field.bishop c => some c

/-- Models `Field.is_empty`: `self.color == None`. -/
def Field.is_empty (f : Field) : Bool := f.color = none

/-- The `name()` of each piece subclass.  `Empty` never reaches `name()`
through `__str__` (its color is `None`); we give it `""`. -/
def Field.name : Field → String
  | Field.empty => ""
  | Field.pawn _ => "P"
  | Field.rook _ => "R"
  | Field.king _ => "K"
  | Field.queen _ => "Q"
  | Field.knight _ => "N"
  | Field.bishop _ => "B"

/-- Models `Field.__str__`: a blank for `Empty`, otherwise the ANSI color code,
the piece letter, then the reset code. -/
def Field.toStr (f : Field) : String :=
  match f.color with
  | none => " "
  | some c =>
      (if c = Color.black then "\x1b[30m" else "\x1b[37m") ++ f.name ++ "\x1b[0m"

/-- The `Position` class: a pair of integers.  The constructor performs no
validation, exactly as `Position.__init__` in the source. -/
structure Position where
  row : Int
  column : Int
deriving DecidableEq, Repr

/-- A position that actually denotes a board square: both components in
`[0, 7]`. -/
def Position.inBounds (p : Position) : Prop :=
  0 ≤ p.row ∧ p.row ≤ 7 ∧ 0 ≤ p.column ∧ p.column ≤ 7

instance (p : Position) : Decidable p.inBounds := by
  unfold Position.inBounds; infer_instance

/-- Models Python `re.match(r"^([a-h])([1-8])$", input)`.  In Python, `$`
matches at the end of the string and also just before a single newline at
the end of the string, hence the three-character case. -/
def reMatchSquare (input : String) : Option (Char × Char) :=
  match input.toList with
  | [f, r] =>
      if (('a' ≤ f ∧ f ≤ 'h') ∧ ('1' ≤ r ∧ r ≤ '8')) then some (f, r) else none
  | [f, r, c] =>
      if ((('a' ≤ f ∧ f ≤ 'h') ∧ ('1' ≤ r ∧ r ≤ '8')) ∧ c = '\n') then some (f, r)
      else none
  | _ => none

/-- The message of the `InvalidPosition` exception raised by
`Position.parse`. -/
def invalidPositionMessage (input : String) : String :=
  "`" ++ input ++ "` is not a valid field, e.g. A1"

/-- Models `Position.parse`: row is `ord(rank) - ord('1')`, column is
`ord(file) - ord('a')`; on no match, raises `InvalidPosition` carrying
the offending string. -/
def Position.parse (input : String) : Except String Position :=
  match reMatchSquare input with
  | none => Except.error (invalidPositionMessage input)
  | some (f, r) =>
      Except.ok ⟨(r.toNat : Int) - ('1'.toNat : Int), (f.toNat : Int) - ('a'.toNat : Int)⟩

/-- Models `Position.__str__`: `chr(column + ord('A'))` then `chr(row + ord('1'))`. -/
def Position.toStr (p : Position) : String :=
  String.mk [Char.ofNat ('A'.toNat + p.column.toNat), Char.ofNat ('1'.toNat + p.row.toNat)]

/-- Models `Position.translate`: adds the offsets and returns the new position,
or `None` when either component leaves `range(8)`. -/
def Position.translate (p : Position) (row_offset column_offset : Int) : Option Position :=
  let row := p.row + row_offset
  let column := p.column + column_offset
  if 0 ≤ row ∧ row < 8 ∧ 0 ≤ column ∧ column < 8 then some ⟨row, column⟩ else none

/-- Python `list` indexing with an `int` index on a list of length
`xs.length`: non-negative indices must be below the length, negative
indices wrap by adding the length, anything else raises `IndexError`
(modelled as `none`). -/
def pyIdx (n : Nat) (i : Int) : Option Nat :=
  if 0 ≤ i ∧ i < (n : Int) then some i.toNat
  else if -(n : Int) ≤ i ∧ i < 0 then some ((n : Int) + i).toNat
  else none

/-- The board grid: `self._board`, a list of rows, each a list of fields. -/
abbrev BoardGrid := List (List Field)

/-- Models `Board.__getitem__`: `self._board[key.row][key.column]` with Python
list-index semantics; `none` models an `IndexError`. -/
def Board.getItem (b : BoardGrid) (p : Position) : Option Field :=
  (pyIdx b.length p.row).bind fun ri =>
    (b.get? ri).bind fun row =>
      (pyIdx row.length p.column).bind fun ci => row.get? ci

/-- Models `Board.__setitem__` with Python list-index semantics; `none` models an
`IndexError`. -/
def Board.setItem (b : BoardGrid) (p : Position) (v : Field) : Option BoardGrid :=
  (pyIdx b.length p.row).bind fun ri =>
    (b.get? ri).bind fun row =>
      (pyIdx row.length p.column).map fun ci => b.set ri (row.set ci v)

/-- Total read access used by the move logic.  Every access the engine
performs is at an in-bounds coordinate on an 8×8 grid, where this agrees
with `Board.getItem` (lemma `getItem_eq_read`); the `Field.empty` default
is never reached there. -/
def Board.read (b : BoardGrid) (p : Position) : Field :=
  (Board.getItem b p).getD Field.empty

/-- Total write access used by the move logic; agrees with `Board.setItem`
at in-bounds coordinates on an 8×8 grid, which are the only ones the
engine writes. -/
def Board.write (b : BoardGrid) (p : Position) (v : Field) : BoardGrid :=
  (Board.setItem b p v).getD b

/-- The grid shape `Board.__init__` establishes and every board operation
preserves: 8 rows of 8 fields. -/
def Board.wf (b : BoardGrid) : Prop :=
  b.length = 8 ∧ ∀ row ∈ b, row.length = 8

instance (b : BoardGrid) : Decidable (Board.wf b) := by
  unfold Board.wf; infer_instance

/-- Cell assignment at literal indices, as in `self._board[r][c] = v`
inside `Board.__init__` (indices there are in range by construction). -/
def setCell (b : BoardGrid) (r c : Nat) (v : Field) : BoardGrid :=
  b.set r ((b.getD r []).set c v)

/-- Models `Board.__init__`: 8 rows of `Empty`, then the back-rank pieces cell by
cell, then rows 1 and 6 replaced by full rows of pawns, in source order. -/
def Board.init : BoardGrid :=
  let b : BoardGrid := List.replicate 8 (List.replicate 8 Field.empty)
  let b := setCell b 0 4 (Field.king Color.white)
  let b := setCell b 7 4 (Field.king Color.black)
  let b := setCell b 0 3 (Field.queen Color.white)
  let b := setCell b 7 3 (Field.queen Color.black)
  let b := setCell b 0 2 (Field.bishop Color.white)
  let b := setCell b 7 2 (Field.bishop Color.black)
  let b := setCell b 0 5 (Field.bishop Color.white)
  let b := setCell b 7 5 (Field.bishop Color.black)
  let b := setCell b 0 1 (Field.knight Color.white)
  let b := setCell b 7 1 (Field.knight Color.black)
  let b := setCell b 0 6 (Field.knight Color.white)
  let b := setCell b 7 6 (Field.knight Color.black)
  let b := setCell b 0 0 (Field.rook Color.white)
  let b := setCell b 7 0 (Field.rook Color.black)
  let b := setCell b 0 7 (Field.rook Color.white)
  let b := setCell b 7 7 (Field.rook Color.black)
  let b := b.set 1 (List.replicate 8 (Field.pawn Color.white))
  let b := b.set 6 (List.replicate 8 (Field.pawn Color.black))
  b

/-- The `# Forward` block of `Pawn.can_move_to`: the single advance onto
an empty square, plus, from the starting rank, the double advance when
the second square is also empty. -/
def Pawn.forward (color : Color) (board : BoardGrid) (from_ : Position) :
    List Position :=
  let direction : Int := if color = Color.white then 1 else -1
  match from_.translate direction 0 with
  | none => []
  | some advance_one =>
      if (Board.read board advance_one).is_empty then
        if (color = Color.white ∧ from_.row = 1) ∨
            (color = Color.black ∧ from_.row = 6) then
          match advance_one.translate direction 0 with
          | none => [advance_one]
          | some advance_two =>
              if (Board.read board advance_two).is_empty then
                [advance_one, advance_two]
              else [advance_one]
        else [advance_one]
      else []

/-- The left half of the `# Strike` block of `Pawn.can_move_to`. -/
def Pawn.strike_left (color : Color) (board : BoardGrid) (from_ : Position) :
    List Position :=
  let direction : Int := if color = Color.white then 1 else -1
  match from_.translate direction (-1) with
  | none => []
  | some advance_left =>
      if (Board.read board advance_left).color = some color.inverse then
        [advance_left]
      else []

/-- The right half of the `# Strike` block of `Pawn.can_move_to`. -/
def Pawn.strike_right (color : Color) (board : BoardGrid) (from_ : Position) :
    List Position :=
  let direction : Int := if color = Color.white then 1 else -1
  match from_.translate direction 1 with
  | none => []
  | some advance_right =>
      if (Board.read board advance_right).color = some color.inverse then
        [advance_right]
      else []

/-- Models `Pawn.can_move_to`: forward candidates (one and possibly two squares),
then the two diagonal strikes, appended in source order.  En passant and
promotion are not implemented in the source. -/
def Pawn.can_move_to (color : Color) (board : BoardGrid) (from_ : Position) :
    List Position :=
  Pawn.forward color board from_ ++ Pawn.strike_left color board from_
    ++ Pawn.strike_right color board from_

/-- The `Field.can_move_to` dispatch: `Empty` returns `[]`; only `Pawn`
overrides the abstract base, whose body is `return []`, so every other
piece kind also yields `[]`. -/
def Field.can_move_to (f : Field) (board : BoardGrid) (from_ : Position) :
    List Position :=
  match f with
  | Field.pawn c => Pawn.can_move_to c board from_
  | _ => []

/-- Outcomes of `Board.move` that are not success.  `nameError` models the
`NameError` Python raises while evaluating the f-string
`f"no \x7bcolor\x7d piece at \x7bfrom_\x7d"`: the name `color` is not defined in
`Board.move`, so the intended `InvalidMove` is never constructed. -/
inductive MoveError where
  | nameError
  | invalidMove (msg : String)
deriving DecidableEq, Repr

/-- Models `Board.move`: the three validation steps, then the two cell writes
(`self[to_] = field` before `self[from_] = Empty()`). -/
def Board.move (b : BoardGrid) (moving_color : Color) (from_ to_ : Position) :
    Except MoveError BoardGrid :=
  let field := Board.read b from_
  if field.color ≠ some moving_color then
    Except.error MoveError.nameError
  else if (Board.read b to_).color = some moving_color then
    Except.error (MoveError.invalidMove
      ("cannot move to field with " ++ moving_color.toStr ++ " piece"))
  else if to_ ∉ field.can_move_to b from_ then
    Except.error (MoveError.invalidMove
      (field.toStr ++ " cannot move from " ++ from_.toStr ++ " to " ++ to_.toStr))
  else
    Except.ok (Board.write (Board.write b to_ field) from_ Field.empty)

/-- The `Game` class: one board plus whose turn it is. -/
structure Game where
  board : BoardGrid
  turn : Color

/-- Models `Game.__init__`: fresh board, White to move. -/
def Game.init : Game := ⟨Board.init, Color.white⟩

/-- Models `Game.move`: delegates to `Board.move`; on success flips the turn; an
`InvalidMove` is caught and logged, leaving the state unchanged; the
`NameError` is not caught and propagates. -/
def Game.move (g : Game) (from_ to_ : Position) : Except MoveError Game :=
  match Board.move g.board g.turn from_ to_ with
  | Except.ok b => Except.ok ⟨b, g.turn.inverse⟩
  | Except.error (MoveError.invalidMove _) => Except.ok g
  | Except.error MoveError.nameError => Except.error MoveError.nameError

/-- The number of non-empty squares on the board (an observer used by the
conservation claims; not a function of the source). -/
def countPieces (b : BoardGrid) : Nat :=
  (b.map fun row => (row.filter fun f => !f.is_empty).length).sum

deriving instance DecidableEq for Except

/-- The eight file letters `a`..`h` of the algebraic notation. -/
def fileLetters : List Char := ['a', 'b', 'c', 'd', 'e', 'f', 'g', 'h']

/-- The eight rank digits `1`..`8` of the algebraic notation. -/
def rankDigits : List Char := ['1', '2', '3', '4', '5', '6', '7', '8']

/-- The pattern the specification describes for `parse`: exactly one file
letter `a`–`h` followed by one rank digit `1`–`8`. -/
def isValidAlgChars : List Char → Bool
  | [f, r] => f ∈ fileLetters && r ∈ rankDigits
  | _ => false

/-- Applies `isValidAlgChars` to the characters of a string. -/
def isValidAlg (s : String) : Bool := isValidAlgChars s.toList

/-- The language the source regex actually accepts: the spec pattern,
optionally followed by one trailing newline (Python `$`). -/
def isValidAlgCharsNL : List Char → Bool
  | [f, r] => f ∈ fileLetters && r ∈ rankDigits
  | [f, r, c] => f ∈ fileLetters && r ∈ rankDigits && c = '\n'
  | _ => false

/-- Applies `isValidAlgCharsNL` to the characters of a string. -/
def isValidAlgNL (s : String) : Bool := isValidAlgCharsNL s.toList

/-- Python `str.lower()` restricted to ASCII, as used on these two-character
coordinate strings. -/
def toLowerStr (s : String) : String := String.mk (s.toList.map Char.toLower)

/-- Python `str.upper()` restricted to ASCII. -/
def toUpperStr (s : String) : String := String.mk (s.toList.map Char.toUpper)

/-! ### Access lemmas for the board grid -/

theorem mem_fileLetters_of_range {c : Char} (h1 : 'a' ≤ c) (h2 : c ≤ 'h') :
    c ∈ fileLetters := by
  have h1' : 97 ≤ c.toNat := h1
  have h2' : c.toNat ≤ 104 := h2
  have hofn := Char.ofNat_toNat c
  unfold fileLetters
  interval_cases h : c.toNat <;> rw [← hofn] <;> decide

theorem mem_rankDigits_of_range {c : Char} (h1 : '1' ≤ c) (h2 : c ≤ '8') :
    c ∈ rankDigits := by
  have h1' : 49 ≤ c.toNat := h1
  have h2' : c.toNat ≤ 56 := h2
  have hofn := Char.ofNat_toNat c
  unfold rankDigits
  interval_cases h : c.toNat <;> rw [← hofn] <;> decide

theorem range_of_mem_fileLetters {c : Char} (h : c ∈ fileLetters) :
    'a' ≤ c ∧ c ≤ 'h' := by
  unfold fileLetters at h
  fin_cases h <;> exact ⟨by decide, by decide⟩

theorem range_of_mem_rankDigits {c : Char} (h : c ∈ rankDigits) :
    '1' ≤ c ∧ c ≤ '8' := by
  unfold rankDigits at h
  fin_cases h <;> exact ⟨by decide, by decide⟩

theorem pyIdx_of_nonneg {n : Nat} {i : Int} (h0 : 0 ≤ i) (h1 : i < (n : Int)) :
    pyIdx n i = some i.toNat := by
  unfold pyIdx
  rw [if_pos ⟨h0, h1⟩]

theorem exists_row {b : BoardGrid} (hwf : Board.wf b) {p : Position}
    (hp : p.inBounds) :
    ∃ row, b.get? p.row.toNat = some row ∧ row.length = 8 := by
  obtain ⟨hlen, hrows⟩ := hwf
  obtain ⟨h0, h1, _, _⟩ := hp
  have hlt : p.row.toNat < b.length := by omega
  refine ⟨b.get ⟨p.row.toNat, hlt⟩, List.get?_eq_get hlt, ?_⟩
  exact hrows _ (b.get_mem _ _)

theorem getItem_eq_row_get {b : BoardGrid} (hwf : Board.wf b) {p : Position}
    (hp : p.inBounds) {row : List Field} (hrow : b.get? p.row.toNat = some row) :
    Board.getItem b p = row.get? p.column.toNat := by
  obtain ⟨hlen, hrows⟩ := hwf
  obtain ⟨h0, h1, h2, h3⟩ := hp
  have hrlen : row.length = 8 := hrows _ (List.get?_mem hrow)
  unfold Board.getItem
  rw [hlen, pyIdx_of_nonneg h0 (by omega), Option.some_bind, hrow, Option.some_bind,
    hrlen, pyIdx_of_nonneg h2 (by omega), Option.some_bind]

theorem getItem_isSome {b : BoardGrid} (hwf : Board.wf b) {p : Position}
    (hp : p.inBounds) : (Board.getItem b p).isSome = true := by
  obtain ⟨row, hrow, hrlen⟩ := exists_row hwf hp
  rw [getItem_eq_row_get hwf hp hrow]
  have : p.column.toNat < row.length := by
    obtain ⟨_, _, h2, h3⟩ := hp; omega
  rw [List.get?_eq_get this]
  rfl

theorem getItem_eq_read {b : BoardGrid} (hwf : Board.wf b) {p : Position}
    (hp : p.inBounds) : Board.getItem b p = some (Board.read b p) := by
  have h := getItem_isSome hwf hp
  unfold Board.read
  obtain ⟨f, hf⟩ := Option.isSome_iff_exists.mp h
  rw [hf]
  rfl

theorem read_eq_row_get {b : BoardGrid} (hwf : Board.wf b) {p : Position}
    (hp : p.inBounds) {row : List Field} (hrow : b.get? p.row.toNat = some row) :
    row.get? p.column.toNat = some (Board.read b p) := by
  rw [← getItem_eq_row_get hwf hp hrow, getItem_eq_read hwf hp]

theorem setItem_isSome {b : BoardGrid} (hwf : Board.wf b) {p : Position}
    (hp : p.inBounds) (v : Field) : (Board.setItem b p v).isSome = true := by
  obtain ⟨row, hrow, hrlen⟩ := exists_row hwf hp
  obtain ⟨h0, h1, h2, h3⟩ := hp
  obtain ⟨hlen, _⟩ := hwf
  unfold Board.setItem
  rw [hlen, pyIdx_of_nonneg h0 (by omega), Option.some_bind, hrow, Option.some_bind,
    hrlen, pyIdx_of_nonneg h2 (by omega)]
  rfl

theorem write_eq_set {b : BoardGrid} (hwf : Board.wf b) {p : Position}
    (hp : p.inBounds) (v : Field) {row : List Field}
    (hrow : b.get? p.row.toNat = some row) :
    Board.write b p v = b.set p.row.toNat (row.set p.column.toNat v) := by
  obtain ⟨h0, h1, h2, h3⟩ := hp
  obtain ⟨hlen, hrows⟩ := hwf
  have hrlen : row.length = 8 := hrows _ (List.get?_mem hrow)
  unfold Board.write Board.setItem
  rw [hlen, pyIdx_of_nonneg h0 (by omega), Option.some_bind, hrow, Option.some_bind,
    hrlen, pyIdx_of_nonneg h2 (by omega)]
  rfl

theorem Position.ext2 {p q : Position} (hr : p.row = q.row)
    (hc : p.column = q.column) : p = q := by
  cases p; cases q; simp_all

theorem wf_write {b : BoardGrid} (hwf : Board.wf b) {p : Position}
    (hp : p.inBounds) (v : Field) : Board.wf (Board.write b p v) := by
  obtain ⟨row, hrow, hrlen⟩ := exists_row hwf hp
  rw [write_eq_set hwf hp v hrow]
  obtain ⟨hlen, hrows⟩ := hwf
  constructor
  · simpa using hlen
  · intro r hr
    rcases List.mem_or_eq_of_mem_set hr with h | h
    · exact hrows _ h
    · subst h
      simpa using hrlen

theorem read_write_self {b : BoardGrid} (hwf : Board.wf b) {p : Position}
    (hp : p.inBounds) (v : Field) :
    Board.read (Board.write b p v) p = v := by
  obtain ⟨row, hrow, hrlen⟩ := exists_row hwf hp
  have hwf' := wf_write hwf hp v
  rw [write_eq_set hwf hp v hrow] at hwf' ⊢
  have hrow' : (b.set p.row.toNat (row.set p.column.toNat v)).get? p.row.toNat
      = some (row.set p.column.toNat v) := by
    apply List.get?_set_eq_of_lt
    obtain ⟨hlen, _⟩ := hwf
    obtain ⟨h0, h1, _, _⟩ := hp
    omega
  have := read_eq_row_get hwf' hp hrow'
  rw [List.get?_set_eq_of_lt] at this
  · exact (Option.some.injEq _ _ ▸ this).symm
  · obtain ⟨_, _, h2, h3⟩ := hp; omega

theorem read_write_ne {b : BoardGrid} (hwf : Board.wf b) {p q : Position}
    (hp : p.inBounds) (hq : q.inBounds) (hne : p ≠ q) (v : Field) :
    Board.read (Board.write b p v) q = Board.read b q := by
  obtain ⟨row, hrow, hrlen⟩ := exists_row hwf hp
  have hwf' := wf_write hwf hp v
  rw [write_eq_set hwf hp v hrow] at hwf' ⊢
  obtain ⟨rowq, hrowq, hrqlen⟩ := exists_row hwf hq
  by_cases hr : p.row.toNat = q.row.toNat
  · have hrInt : p.row = q.row := by
      obtain ⟨a0, a1, _, _⟩ := hp; obtain ⟨b0, b1, _, _⟩ := hq; omega
    have hc : p.column.toNat ≠ q.column.toNat := by
      obtain ⟨_, _, a2, a3⟩ := hp; obtain ⟨_, _, b2, b3⟩ := hq
      intro hcc
      exact hne (Position.ext2 hrInt (by omega))
    have hroweq : row = rowq := by
      rw [hr] at hrow; rw [hrow] at hrowq; injection hrowq
    subst hroweq
    have hrow' : (b.set p.row.toNat (row.set p.column.toNat v)).get? q.row.toNat
        = some (row.set p.column.toNat v) := by
      rw [← hr]
      apply List.get?_set_eq_of_lt
      obtain ⟨hlen, _⟩ := hwf
      obtain ⟨a0, a1, _, _⟩ := hp
      omega
    have h1 := read_eq_row_get hwf' hq hrow'
    rw [List.get?_set_ne _ _ hc] at h1
    have h2 := read_eq_row_get hwf hq hrowq
    rw [h1] at h2
    injection h2
  · have hrow' : (b.set p.row.toNat (row.set p.column.toNat v)).get? q.row.toNat
        = some rowq := by
      rw [List.get?_set_ne _ _ hr]
      exact hrowq
    have h1 := read_eq_row_get hwf' hq hrow'
    have h2 := read_eq_row_get hwf hq hrowq
    rw [h1] at h2
    injection h2

theorem translate_eq_some_iff (p : Position) (ro co : Int) (q : Position) :
    p.translate ro co = some q ↔
      q.row = p.row + ro ∧ q.column = p.column + co ∧ q.inBounds := by
  simp only [Position.translate, Position.inBounds]
  split
  next h =>
    simp only [Option.some.injEq]
    constructor
    · rintro rfl
      refine ⟨rfl, rfl, ?_⟩
      show 0 ≤ p.row + ro ∧ p.row + ro ≤ 7 ∧ 0 ≤ p.column + co ∧ p.column + co ≤ 7
      omega
    · rintro ⟨h1, h2, _⟩
      exact (Position.ext2 h1 h2).symm
  next h =>
    constructor
    · intro hh; cases hh
    · rintro ⟨h1, h2, h3, h4, h5, h6⟩
      exact absurd ⟨by omega, by omega, by omega, by omega⟩ h

theorem translate_eq_none_iff (p : Position) (ro co : Int) :
    p.translate ro co = none ↔
      (p.row + ro < 0 ∨ 7 < p.row + ro ∨ p.column + co < 0 ∨ 7 < p.column + co) := by
  simp only [Position.translate]
  split
  next h =>
    constructor
    · intro hh; cases hh
    · intro hh; exact absurd h (by omega)
  next h =>
    constructor
    · intro _
      by_contra hc
      exact h ⟨by omega, by omega, by omega, by omega⟩
    · intro _; rfl

theorem Position.mk_row (a b : Int) : (⟨a, b⟩ : Position).row = a := rfl

theorem Position.mk_column (a b : Int) : (⟨a, b⟩ : Position).column = b := rfl

theorem mem_strike_left_iff (c : Color) (b : BoardGrid) (from_ to_ : Position) :
    to_ ∈ Pawn.strike_left c b from_ ↔
      (to_ = ⟨from_.row + (if c = Color.white then 1 else -1), from_.column - 1⟩ ∧
        to_.inBounds ∧ (Board.read b to_).color = some c.inverse) := by
  simp only [Pawn.strike_left]
  rcases hL : Position.translate from_ (if c = Color.white then (1 : Int) else -1) (-1)
    with _ | aL
  · simp only [hL, List.not_mem_nil, false_iff]
    rw [translate_eq_none_iff] at hL
    rintro ⟨rfl, hb, _⟩
    simp only [Position.inBounds, Position.mk_row, Position.mk_column] at hb
    omega
  · simp only [hL]
    rw [translate_eq_some_iff] at hL
    obtain ⟨e1, e2, hbb⟩ := hL
    simp only [Position.inBounds] at hbb
    by_cases hcc : (Board.read b aL).color = some c.inverse
    · rw [if_pos hcc]
      simp only [List.mem_singleton]
      constructor
      · rintro rfl
        refine ⟨?_, ?_, hcc⟩
        · apply Position.ext2 <;>
            simp only [Position.mk_row, Position.mk_column] <;> omega
        · simp only [Position.inBounds]
          omega
      · rintro ⟨hx, hb2, hc2⟩
        have hxr : to_.row = from_.row + (if c = Color.white then (1 : Int) else -1) := by
          rw [hx]
        have hxc : to_.column = from_.column - 1 := by
          rw [hx]
        apply Position.ext2 <;> omega
    · rw [if_neg hcc]
      simp only [List.not_mem_nil, false_iff]
      rintro ⟨hx, hb2, hc2⟩
      have hxr : to_.row = from_.row + (if c = Color.white then (1 : Int) else -1) := by
        rw [hx]
      have hxc : to_.column = from_.column - 1 := by
        rw [hx]
      have hto : to_ = aL := by apply Position.ext2 <;> omega
      rw [hto] at hc2
      exact hcc hc2

theorem mem_strike_right_iff (c : Color) (b : BoardGrid) (from_ to_ : Position) :
    to_ ∈ Pawn.strike_right c b from_ ↔
      (to_ = ⟨from_.row + (if c = Color.white then 1 else -1), from_.column + 1⟩ ∧
        to_.inBounds ∧ (Board.read b to_).color = some c.inverse) := by
  simp only [Pawn.strike_right]
  rcases hR : Position.translate from_ (if c = Color.white then (1 : Int) else -1) 1
    with _ | aR
  · simp only [hR, List.not_mem_nil, false_iff]
    rw [translate_eq_none_iff] at hR
    rintro ⟨rfl, hb, _⟩
    simp only [Position.inBounds, Position.mk_row, Position.mk_column] at hb
    omega
  · simp only [hR]
    rw [translate_eq_some_iff] at hR
    obtain ⟨e1, e2, hbb⟩ := hR
    simp only [Position.inBounds] at hbb
    by_cases hcc : (Board.read b aR).color = some c.inverse
    · rw [if_pos hcc]
      simp only [List.mem_singleton]
      constructor
      · rintro rfl
        refine ⟨?_, ?_, hcc⟩
        · apply Position.ext2 <;>
            simp only [Position.mk_row, Position.mk_column] <;> omega
        · simp only [Position.inBounds]
          omega
      · rintro ⟨hx, hb2, hc2⟩
        have hxr : to_.row = from_.row + (if c = Color.white then (1 : Int) else -1) := by
          rw [hx]
        have hxc : to_.column = from_.column + 1 := by
          rw [hx]
        apply Position.ext2 <;> omega
    · rw [if_neg hcc]
      simp only [List.not_mem_nil, false_iff]
      rintro ⟨hx, hb2, hc2⟩
      have hxr : to_.row = from_.row + (if c = Color.white then (1 : Int) else -1) := by
        rw [hx]
      have hxc : to_.column = from_.column + 1 := by
        rw [hx]
      have hto : to_ = aR := by apply Position.ext2 <;> omega
      rw [hto] at hc2
      exact hcc hc2

theorem startRank_iff (c : Color) (r : Int) :
    ((c = Color.white ∧ r = 1) ∨ (c = Color.black ∧ r = 6)) ↔
      r = (if c = Color.white then 1 else 6) := by
  cases c <;> simp

theorem mem_forward_iff (c : Color) (b : BoardGrid) (from_ to_ : Position)
    (hf : from_.inBounds) :
    to_ ∈ Pawn.forward c b from_ ↔
      ((to_ = ⟨from_.row + (if c = Color.white then 1 else -1), from_.column⟩ ∧
          to_.inBounds ∧ (Board.read b to_).is_empty = true) ∨
       (to_ = ⟨from_.row + 2 * (if c = Color.white then 1 else -1), from_.column⟩ ∧
          from_.row = (if c = Color.white then 1 else 6) ∧
          (Board.read b ⟨from_.row + (if c = Color.white then 1 else -1),
            from_.column⟩).is_empty = true ∧
          (Board.read b to_).is_empty = true)) := by
  simp only [Pawn.forward, startRank_iff]
  have hrel : ((if c = Color.white then (1 : Int) else -1) = 1 ∧
        (if c = Color.white then (1 : Int) else 6) = 1) ∨
      ((if c = Color.white then (1 : Int) else -1) = -1 ∧
        (if c = Color.white then (1 : Int) else 6) = 6) := by
    cases c <;> simp
  obtain ⟨f1, f2, f3, f4⟩ := hf
  rcases h1 : Position.translate from_ (if c = Color.white then (1 : Int) else -1) 0
    with _ | a1
  · simp only [h1, List.not_mem_nil, false_iff]
    rw [translate_eq_none_iff] at h1
    rintro (⟨rfl, hb, _⟩ | ⟨rfl, hsr, _, _⟩)
    · simp only [Position.inBounds, Position.mk_row, Position.mk_column] at hb
      omega
    · omega
  · simp only [h1]
    rw [translate_eq_some_iff] at h1
    obtain ⟨e1, e2, hb1⟩ := h1
    simp only [Position.inBounds] at hb1
    have ha1 : a1 = (⟨from_.row + (if c = Color.white then (1 : Int) else -1),
        from_.column⟩ : Position) := by
      apply Position.ext2 <;> simp only [Position.mk_row, Position.mk_column] <;> omega
    by_cases hE1 : (Board.read b a1).is_empty = true
    · rw [if_pos hE1]
      by_cases hSR : from_.row = (if c = Color.white then (1 : Int) else 6)
      · rw [if_pos hSR]
        rcases h2 : Position.translate a1 (if c = Color.white then (1 : Int) else -1) 0
          with _ | a2
        · exfalso
          rw [translate_eq_none_iff] at h2
          omega
        · simp only [h2]
          rw [translate_eq_some_iff] at h2
          obtain ⟨g1, g2, hb2⟩ := h2
          simp only [Position.inBounds] at hb2
          by_cases hE2 : (Board.read b a2).is_empty = true
          · rw [if_pos hE2]
            simp only [List.mem_cons, List.mem_singleton, List.not_mem_nil, or_false]
            constructor
            · rintro (rfl | rfl)
              · exact Or.inl ⟨ha1, by simp only [Position.inBounds]; omega, hE1⟩
              · refine Or.inr ⟨?_, hSR, ?_, hE2⟩
                · apply Position.ext2 <;>
                    simp only [Position.mk_row, Position.mk_column] <;> omega
                · rw [← ha1]
                  exact hE1
            · rintro (⟨hx, hb', hE⟩ | ⟨hx, hsr', hmid, hE⟩)
              · left
                rw [hx]
                exact ha1.symm
              · right
                rw [hx]
                apply Position.ext2 <;>
                  simp only [Position.mk_row, Position.mk_column] <;> omega
          · rw [if_neg hE2]
            simp only [List.mem_singleton]
            constructor
            · rintro rfl
              exact Or.inl ⟨ha1, by simp only [Position.inBounds]; omega, hE1⟩
            · rintro (⟨hx, hb', hE⟩ | ⟨hx, hsr', hmid, hE⟩)
              · rw [hx]
                exact ha1.symm
              · exfalso
                have hto : to_ = a2 := by
                  rw [hx]
                  apply Position.ext2 <;>
                    simp only [Position.mk_row, Position.mk_column] <;> omega
                rw [hto] at hE
                exact hE2 hE
      · rw [if_neg hSR]
        simp only [List.mem_singleton]
        constructor
        · rintro rfl
          exact Or.inl ⟨ha1, by simp only [Position.inBounds]; omega, hE1⟩
        · rintro (⟨hx, hb', hE⟩ | ⟨hx, hsr', hmid, hE⟩)
          · rw [hx]
            exact ha1.symm
          · exact absurd hsr' hSR
    · rw [if_neg hE1]
      simp only [List.not_mem_nil, false_iff]
      rintro (⟨hx, hb', hE⟩ | ⟨hx, hsr', hmid, hE⟩)
      · have hto : to_ = a1 := by
          rw [hx]
          exact ha1.symm
        rw [hto] at hE
        exact hE1 hE
      · rw [← ha1] at hmid
        exact hE1 hmid

theorem filterLen_set (P : Field → Bool) :
    ∀ (l : List Field) (i : Nat), i < l.length → ∀ v : Field,
      ((l.set i v).filter P).length + (if P (l.getD i Field.empty) then 1 else 0)
        = (l.filter P).length + (if P v then 1 else 0) := by
  intro l
  induction l with
  | nil => intro i h; simp at h
  | cons a t ih =>
      intro i h v
      cases i with
      | zero =>
          simp only [List.set, List.getD_cons_zero, List.filter_cons]
          by_cases hPa : P a = true <;> by_cases hPv : P v = true
          · simp only [if_pos hPa, if_pos hPv, List.length_cons]
          · simp only [if_pos hPa, if_neg hPv, List.length_cons]
          · simp only [if_neg hPa, if_pos hPv, List.length_cons]
          · simp only [if_neg hPa, if_neg hPv]
      | succ n =>
          have hn : n < t.length := by simpa using h
          have ht := ih n hn v
          simp only [List.set, List.getD_cons_succ, List.filter_cons]
          by_cases hPa : P a = true
          · simp only [if_pos hPa, List.length_cons]; omega
          · simp only [if_neg hPa]; omega

theorem sumMap_set (g : List Field → Nat) :
    ∀ (l : List (List Field)) (i : Nat), i < l.length → ∀ v : List Field,
      ((l.set i v).map g).sum + g (l.getD i [])
        = (l.map g).sum + g v := by
  intro l
  induction l with
  | nil => intro i h; simp at h
  | cons a t ih =>
      intro i h v
      cases i with
      | zero =>
          simp only [List.set, List.getD_cons_zero, List.map_cons, List.sum_cons]
          omega
      | succ n =>
          have hn : n < t.length := by simpa using h
          have := ih n hn v
          simp only [List.set, List.getD_cons_succ, List.map_cons, List.sum_cons]
          omega

/-- Weight of a field for piece counting: 1 for a piece, 0 for `Empty`. -/
def pieceWeight (f : Field) : Nat := if f.is_empty then 0 else 1

theorem weight_if_eq (f : Field) :
    (if (!f.is_empty) then 1 else 0) = pieceWeight f := by
  unfold pieceWeight
  cases hf : f.is_empty <;> simp [hf]

theorem count_write {b : BoardGrid} (hwf : Board.wf b) {p : Position}
    (hp : p.inBounds) (v : Field) :
    countPieces (Board.write b p v) + pieceWeight (Board.read b p)
      = countPieces b + pieceWeight v := by
  obtain ⟨row, hrow, hrlen⟩ := exists_row hwf hp
  rw [write_eq_set hwf hp v hrow]
  have hrlt : p.row.toNat < b.length := by
    obtain ⟨hlen, _⟩ := hwf; obtain ⟨h0, h1, _, _⟩ := hp; omega
  have hclt : p.column.toNat < row.length := by
    obtain ⟨_, _, h2, h3⟩ := hp; omega
  have hgetD : b.getD p.row.toNat [] = row := by
    rw [List.getD_eq_get?, hrow]; rfl
  have hcell : row.getD p.column.toNat Field.empty = Board.read b p := by
    rw [List.getD_eq_get?, read_eq_row_get hwf hp hrow]; rfl
  have houter := sumMap_set (fun row => (row.filter fun f => !f.is_empty).length) b
    p.row.toNat hrlt (row.set p.column.toNat v)
  rw [hgetD] at houter
  have hinner := filterLen_set (fun f => !f.is_empty) row p.column.toNat hclt v
  rw [hcell] at hinner
  rw [weight_if_eq (Board.read b p), weight_if_eq v] at hinner
  unfold countPieces
  omega

/-! ### Claim theorems -/

/-- C9: for every in-bounds coordinate and every pair of signed offsets,
`translate` returns absent exactly when the resulting row or column falls
outside `[0,7]` (no wrapping, no clamping, no exception), and otherwise
returns the coordinate with the offsets added. -/
theorem translate_absent_iff_out_of_bounds (p : Position) (h : p.inBounds)
    (ro co : Int) :
    (p.translate ro co = none ↔
      (p.row + ro < 0 ∨ 7 < p.row + ro ∨ p.column + co < 0 ∨ 7 < p.column + co)) ∧
    (∀ q, p.translate ro co = some q → q = ⟨p.row + ro, p.column + co⟩) := by
  refine ⟨translate_eq_none_iff p ro co, ?_⟩
  intro q hq
  obtain ⟨h1, h2, _⟩ := (translate_eq_some_iff p ro co q).mp hq
  exact Position.ext2 h1 h2

/-- Witness for C9 at `A1.translate(row_offset=-1)`. -/
theorem translate_absent_iff_out_of_bounds_witness :
    (⟨0, 0⟩ : Position).inBounds ∧
    ((Position.translate ⟨0, 0⟩ (-1) 0 = none ↔
       ((⟨0, 0⟩ : Position).row + (-1) < 0 ∨ 7 < (⟨0, 0⟩ : Position).row + (-1) ∨
        (⟨0, 0⟩ : Position).column + 0 < 0 ∨ 7 < (⟨0, 0⟩ : Position).column + 0)) ∧
     (∀ q, Position.translate ⟨0, 0⟩ (-1) 0 = some q →
        q = ⟨(⟨0, 0⟩ : Position).row + (-1), (⟨0, 0⟩ : Position).column + 0⟩)) :=
  ⟨by decide, translate_absent_iff_out_of_bounds ⟨0, 0⟩ (by decide) (-1) 0⟩

/-- C6: every non-Pawn, non-Empty piece kind, of either color, at every
square on every board, has an empty candidate-destination set. -/
theorem nonpawn_candidate_destinations_empty (c : Color) (b : BoardGrid)
    (p : Position) :
    Field.can_move_to (Field.rook c) b p = [] ∧
    Field.can_move_to (Field.knight c) b p = [] ∧
    Field.can_move_to (Field.bishop c) b p = [] ∧
    Field.can_move_to (Field.queen c) b p = [] ∧
    Field.can_move_to (Field.king c) b p = [] :=
  ⟨rfl, rfl, rfl, rfl, rfl⟩

/-- C1 (contradicted by the code): the claim says `move(E7,E5)` on a fresh
game with White to move fails with `InvalidMove`; in the source the
`raise InvalidMove(...)` f-string references the undefined name `color`,
so Python raises `NameError` instead, which `Game.move` does not catch.
E7 is `Position(6,4)`, E5 is `Position(4,4)`. -/
theorem board_move_wrong_color_raises_nameError :
    Board.move Board.init Color.white ⟨6, 4⟩ ⟨4, 4⟩
      = Except.error MoveError.nameError ∧
    Game.move Game.init ⟨6, 4⟩ ⟨4, 4⟩ = Except.error MoveError.nameError :=
  ⟨rfl, rfl⟩

/-- C4: whenever `Board.move` fails with `InvalidMove`, `Game.move` leaves
the game unchanged (same board, same turn) and reports the error instead of
propagating a fatal fault. -/
theorem game_move_invalidMove_leaves_state_unchanged (g : Game)
    (from_ to_ : Position) (msg : String)
    (h : Board.move g.board g.turn from_ to_
      = Except.error (MoveError.invalidMove msg)) :
    Game.move g from_ to_ = Except.ok g := by
  unfold Game.move
  rw [h]

/-- Witness for C4: `move(E2,E5)` on a fresh game is an `InvalidMove` (too
far for a pawn) and leaves the game unchanged. -/
theorem game_move_invalidMove_leaves_state_unchanged_witness :
    Board.move Game.init.board Game.init.turn ⟨1, 4⟩ ⟨4, 4⟩
      = Except.error (MoveError.invalidMove
          "\x1b[37mP\x1b[0m cannot move from E2 to E5") ∧
    Game.move Game.init ⟨1, 4⟩ ⟨4, 4⟩ = Except.ok Game.init :=
  ⟨rfl, game_move_invalidMove_leaves_state_unchanged Game.init ⟨1, 4⟩ ⟨4, 4⟩
    "\x1b[37mP\x1b[0m cannot move from E2 to E5" rfl⟩

/-- C5 counterexample: the claim says a SquareCoordinate is
bounds-validated at construction, so indexing can never fail; but
`Position.__init__` performs no validation, `Position(8,0)` is
constructible, and indexing the fresh 8×8 board at it raises `IndexError`
(modelled as `none`). -/
theorem getItem_fails_at_constructible_out_of_bounds :
    Board.getItem Board.init ⟨8, 0⟩ = none := rfl

/-- C5 (amended): the operations `Board.get` and `Board.set` never incur a bounds failure
at any coordinate whose row and column lie in `[0,7]` on an 8×8 grid; the
constructor itself performs no validation, so this holds for in-bounds
coordinates rather than for every constructible one. -/
theorem getItem_setItem_inBounds_succeed (b : BoardGrid) (p : Position)
    (v : Field) (hwf : Board.wf b) (hp : p.inBounds) :
    (Board.getItem b p).isSome = true ∧ (Board.setItem b p v).isSome = true :=
  ⟨getItem_isSome hwf hp, setItem_isSome hwf hp v⟩

/-- Witness for the amended C5 on the fresh board at A1. -/
theorem getItem_setItem_inBounds_succeed_witness :
    Board.wf Board.init ∧ (⟨0, 0⟩ : Position).inBounds ∧
    ((Board.getItem Board.init ⟨0, 0⟩).isSome = true ∧
     (Board.setItem Board.init ⟨0, 0⟩ Field.empty).isSome = true) :=
  ⟨by decide, by decide,
   getItem_setItem_inBounds_succeed Board.init ⟨0, 0⟩ Field.empty
     (by decide) (by decide)⟩

/-- C8 counterexample: the claim says every string that is not exactly one
file letter followed by one rank digit fails to parse; but Python `$`
also matches before one trailing newline, so `parse "e2\n"` succeeds. -/
theorem parse_accepts_trailing_newline :
    isValidAlg "e2\n" = false ∧ Position.parse "e2\n" = Except.ok ⟨1, 4⟩ :=
  ⟨rfl, rfl⟩

/-- C8 (amended): every string that matches neither the file-letter +
rank-digit pattern nor that pattern followed by a single trailing newline
fails with `InvalidPosition` carrying the offending string. -/
theorem parse_fails_unless_pattern_or_trailing_newline (s : String)
    (h : isValidAlgNL s = false) :
    Position.parse s = Except.error (invalidPositionMessage s) := by
  unfold Position.parse
  suffices hm : reMatchSquare s = none by rw [hm]
  unfold reMatchSquare
  unfold isValidAlgNL at h
  rcases hl : s.toList with _ | ⟨f, _ | ⟨r, _ | ⟨c, _ | rest⟩⟩⟩
  · rfl
  · rfl
  · rw [hl] at h
    show (if ('a' ≤ f ∧ f ≤ 'h') ∧ '1' ≤ r ∧ r ≤ '8' then some (f, r) else none)
      = none
    rw [if_neg]
    rintro ⟨⟨ha1, ha2⟩, hr1, hr2⟩
    have hf := mem_fileLetters_of_range ha1 ha2
    have hr := mem_rankDigits_of_range hr1 hr2
    simp [isValidAlgCharsNL, hf, hr] at h
  · rw [hl] at h
    show (if (('a' ≤ f ∧ f ≤ 'h') ∧ '1' ≤ r ∧ r ≤ '8') ∧ c = '\n'
        then some (f, r) else none) = none
    rw [if_neg]
    rintro ⟨⟨⟨ha1, ha2⟩, hr1, hr2⟩, hc⟩
    have hf := mem_fileLetters_of_range ha1 ha2
    have hr := mem_rankDigits_of_range hr1 hr2
    simp [isValidAlgCharsNL, hf, hr, hc] at h
  · rfl

/-- Witness for the amended C8 on the spec's examples. -/
theorem parse_fails_unless_pattern_or_trailing_newline_witness :
    (isValidAlgNL "i9" = false ∧
      Position.parse "i9" = Except.error (invalidPositionMessage "i9")) ∧
    (isValidAlgNL "a0" = false ∧
      Position.parse "a0" = Except.error (invalidPositionMessage "a0")) ∧
    (isValidAlgNL "e" = false ∧
      Position.parse "e" = Except.error (invalidPositionMessage "e")) ∧
    (isValidAlgNL "" = false ∧
      Position.parse "" = Except.error (invalidPositionMessage "")) :=
  ⟨⟨by decide, parse_fails_unless_pattern_or_trailing_newline "i9" (by decide)⟩,
   ⟨by decide, parse_fails_unless_pattern_or_trailing_newline "a0" (by decide)⟩,
   ⟨by decide, parse_fails_unless_pattern_or_trailing_newline "e" (by decide)⟩,
   ⟨by decide, parse_fails_unless_pattern_or_trailing_newline "" (by decide)⟩⟩

/-- C7: every valid algebraic string (file letter `a`–`h`, rank digit
`1`–`8`) parses, and serializing the parsed coordinate gives back the
string up to case, the serialized form being the uppercase file letter
followed by the rank digit. -/
theorem parse_toStr_roundtrip (s : String) (h : isValidAlg s = true) :
    (Position.parse s).map (fun p => toLowerStr p.toStr)
      = Except.ok (toLowerStr s) ∧
    (Position.parse s).map Position.toStr = Except.ok (toUpperStr s) := by
  obtain ⟨l⟩ := s
  unfold isValidAlg at h
  change isValidAlgChars l = true at h
  rcases l with _ | ⟨f, _ | ⟨r, _ | ⟨c, rest⟩⟩⟩
  · simp [isValidAlgChars] at h
  · simp [isValidAlgChars] at h
  · have h' : f ∈ fileLetters ∧ r ∈ rankDigits := by
      simpa [isValidAlgChars] using h
    obtain ⟨hfm, hrm⟩ := h'
    unfold fileLetters at hfm
    unfold rankDigits at hrm
    fin_cases hfm <;> fin_cases hrm <;> exact ⟨by decide, by decide⟩
  · simp [isValidAlgChars] at h

/-- Witness for C7 at the string `e2`. -/
theorem parse_toStr_roundtrip_witness :
    isValidAlg "e2" = true ∧
    ((Position.parse "e2").map (fun p => toLowerStr p.toStr)
        = Except.ok (toLowerStr "e2") ∧
     (Position.parse "e2").map Position.toStr = Except.ok (toUpperStr "e2")) :=
  ⟨by decide, parse_toStr_roundtrip "e2" (by decide)⟩

/-- Dissection of a successful `Board.move`: the three guards passed and
the result is the two writes. -/
theorem board_move_ok_elim {b : BoardGrid} {mc : Color} {from_ to_ : Position}
    {b' : BoardGrid} (h : Board.move b mc from_ to_ = Except.ok b') :
    (Board.read b from_).color = some mc ∧
    ¬((Board.read b to_).color = some mc) ∧
    to_ ∈ (Board.read b from_).can_move_to b from_ ∧
    b' = Board.write (Board.write b to_ (Board.read b from_)) from_ Field.empty := by
  simp only [Board.move] at h
  split at h
  next hc1 => exact absurd h (by simp)
  next hc1 =>
    split at h
    next hc2 => exact absurd h (by simp)
    next hc2 =>
      split at h
      next hc3 => exact absurd h (by simp)
      next hc3 =>
        simp only [Except.ok.injEq] at h
        rw [not_not] at hc1
        rw [Decidable.not_not] at hc3
        exact ⟨hc1, hc2, hc3, h.symm⟩

/-- A successful move never has `from_ = to_`: the source holds the
mover's piece while the destination must not. -/
theorem board_move_ok_ne {b : BoardGrid} {mc : Color} {from_ to_ : Position}
    {b' : BoardGrid} (h : Board.move b mc from_ to_ = Except.ok b') :
    from_ ≠ to_ := by
  obtain ⟨h1, h2, _, _⟩ := board_move_ok_elim h
  intro he
  rw [he] at h1
  exact h2 h1

/-- C3: when a move succeeds, the destination holds the piece that was at
the source, the source becomes `Empty`, every other square is unchanged,
and `Game.move` flips the turn to the inverse color. -/
theorem board_move_success_updates (g : Game) (from_ to_ : Position)
    (b' : BoardGrid) (hwf : Board.wf g.board) (hf : from_.inBounds)
    (ht : to_.inBounds)
    (h : Board.move g.board g.turn from_ to_ = Except.ok b') :
    Game.move g from_ to_ = Except.ok ⟨b', g.turn.inverse⟩ ∧
    Board.read b' to_ = Board.read g.board from_ ∧
    Board.read b' from_ = Field.empty ∧
    ∀ r : Position, r.inBounds → r ≠ from_ → r ≠ to_ →
      Board.read b' r = Board.read g.board r := by
  have hgame : Game.move g from_ to_ = Except.ok ⟨b', g.turn.inverse⟩ := by
    unfold Game.move
    rw [h]
  have hne : from_ ≠ to_ := board_move_ok_ne h
  obtain ⟨h1, h2, h3, hb⟩ := board_move_ok_elim h
  subst hb
  have hwfW : Board.wf (Board.write g.board to_ (Board.read g.board from_)) :=
    wf_write hwf ht _
  refine ⟨hgame, ?_, ?_, ?_⟩
  · rw [read_write_ne hwfW hf ht hne]
    exact read_write_self hwf ht _
  · exact read_write_self hwfW hf _
  · intro r hr hrf hrt
    rw [read_write_ne hwfW hf hr (Ne.symm hrf)]
    exact read_write_ne hwf ht hr (Ne.symm hrt) _

/-- Witness for C3: `move(E2,E4)` on a fresh game. -/
theorem board_move_success_updates_witness :
    Board.wf Game.init.board ∧ (⟨1, 4⟩ : Position).inBounds ∧
    (⟨3, 4⟩ : Position).inBounds ∧
    Game.move Game.init ⟨1, 4⟩ ⟨3, 4⟩ =
      Except.ok ⟨Board.write (Board.write Board.init ⟨3, 4⟩
          (Field.pawn Color.white)) ⟨1, 4⟩ Field.empty, Color.white.inverse⟩ :=
  ⟨by decide, by decide, by decide,
   (board_move_success_updates Game.init ⟨1, 4⟩ ⟨3, 4⟩ _
     (by decide) (by decide) (by decide) rfl).1⟩

/-- C10: a successful move leaves the number of non-empty squares
unchanged when the destination was empty, and decreases it by exactly one
when the destination held an (opposite-color) piece; it never increases
it. -/
theorem board_move_count (b : BoardGrid) (mc : Color) (from_ to_ : Position)
    (b' : BoardGrid) (hwf : Board.wf b) (hf : from_.inBounds)
    (ht : to_.inBounds) (h : Board.move b mc from_ to_ = Except.ok b') :
    countPieces b' ≤ countPieces b ∧
    ((Board.read b to_).is_empty = true → countPieces b' = countPieces b) ∧
    ((Board.read b to_).is_empty = false → countPieces b' + 1 = countPieces b) := by
  have hne : from_ ≠ to_ := board_move_ok_ne h
  obtain ⟨h1, h2, h3, hb⟩ := board_move_ok_elim h
  subst hb
  have hwfW : Board.wf (Board.write b to_ (Board.read b from_)) :=
    wf_write hwf ht _
  have hWfrom : Board.read (Board.write b to_ (Board.read b from_)) from_
      = Board.read b from_ := read_write_ne hwf ht hf (Ne.symm hne) _
  have hwFrom : pieceWeight (Board.read b from_) = 1 := by
    unfold pieceWeight Field.is_empty
    rw [h1]
    rfl
  have c1 : countPieces (Board.write (Board.write b to_ (Board.read b from_))
      from_ Field.empty) + 1
      = countPieces (Board.write b to_ (Board.read b from_)) := by
    have hc := count_write hwfW hf Field.empty
    rw [hWfrom, hwFrom] at hc
    have hwEmpty : pieceWeight Field.empty = 0 := rfl
    rw [hwEmpty] at hc
    omega
  have c2 : countPieces (Board.write b to_ (Board.read b from_))
      + pieceWeight (Board.read b to_) = countPieces b + 1 := by
    have hc := count_write hwf ht (Board.read b from_)
    rw [hwFrom] at hc
    exact hc
  refine ⟨?_, fun hE => ?_, fun hE => ?_⟩
  · have hor : pieceWeight (Board.read b to_) = 0 ∨
        pieceWeight (Board.read b to_) = 1 := by
      unfold pieceWeight
      split
      · exact Or.inl rfl
      · exact Or.inr rfl
    omega
  · have hw0 : pieceWeight (Board.read b to_) = 0 := by
      unfold pieceWeight
      rw [if_pos hE]
    omega
  · have hw1 : pieceWeight (Board.read b to_) = 1 := by
      unfold pieceWeight
      rw [if_neg]
      simp [hE]
    omega

/-- Witness for C10 on both scenarios: the non-capturing `move(E2,E4)` on
a fresh board keeps 32 pieces. -/
theorem board_move_count_witness :
    Board.wf Board.init ∧ (⟨1, 4⟩ : Position).inBounds ∧
    (⟨3, 4⟩ : Position).inBounds ∧
    countPieces (Board.write (Board.write Board.init ⟨3, 4⟩
        (Field.pawn Color.white)) ⟨1, 4⟩ Field.empty) = countPieces Board.init :=
  ⟨by decide, by decide, by decide,
   (board_move_count Board.init Color.white ⟨1, 4⟩ ⟨3, 4⟩ _
     (by decide) (by decide) (by decide) rfl).2.1 (by decide)⟩

/-- C2: a pawn's candidate destinations are exactly the single forward
square when on the board and empty, the double-forward square only from
the starting rank (row 1 for White, row 6 for Black) with both squares
empty, and each forward diagonal exactly when it is on the board and
holds an opposite-color piece. -/
theorem pawn_can_move_to_iff (c : Color) (b : BoardGrid) (from_ to_ : Position)
    (hf : from_.inBounds) :
    to_ ∈ Pawn.can_move_to c b from_ ↔
      ((to_ = ⟨from_.row + (if c = Color.white then 1 else -1), from_.column⟩ ∧
          to_.inBounds ∧ (Board.read b to_).is_empty = true) ∨
       (to_ = ⟨from_.row + 2 * (if c = Color.white then 1 else -1), from_.column⟩ ∧
          from_.row = (if c = Color.white then 1 else 6) ∧
          (Board.read b ⟨from_.row + (if c = Color.white then 1 else -1),
            from_.column⟩).is_empty = true ∧
          (Board.read b to_).is_empty = true) ∨
       (to_ = ⟨from_.row + (if c = Color.white then 1 else -1), from_.column - 1⟩ ∧
          to_.inBounds ∧ (Board.read b to_).color = some c.inverse) ∨
       (to_ = ⟨from_.row + (if c = Color.white then 1 else -1), from_.column + 1⟩ ∧
          to_.inBounds ∧ (Board.read b to_).color = some c.inverse)) := by
  unfold Pawn.can_move_to
  simp only [List.mem_append]
  rw [mem_forward_iff c b from_ to_ hf, mem_strike_left_iff c b from_ to_,
    mem_strike_right_iff c b from_ to_]
  tauto

/-- Witness for C2: the white pawn at E2 on the fresh board, asked about
the double advance to E4. -/
theorem pawn_can_move_to_iff_witness :
    (⟨1, 4⟩ : Position).inBounds ∧
    ((⟨3, 4⟩ : Position) ∈ Pawn.can_move_to Color.white Board.init ⟨1, 4⟩ ↔
      (((⟨3, 4⟩ : Position) = ⟨2, 4⟩ ∧ (⟨3, 4⟩ : Position).inBounds ∧
          (Board.read Board.init ⟨3, 4⟩).is_empty = true) ∨
       ((⟨3, 4⟩ : Position) = ⟨3, 4⟩ ∧ (1 : Int) = 1 ∧
          (Board.read Board.init ⟨2, 4⟩).is_empty = true ∧
          (Board.read Board.init ⟨3, 4⟩).is_empty = true) ∨
       ((⟨3, 4⟩ : Position) = ⟨2, 3⟩ ∧ (⟨3, 4⟩ : Position).inBounds ∧
          (Board.read Board.init ⟨3, 4⟩).color = some Color.white.inverse) ∨
       ((⟨3, 4⟩ : Position) = ⟨2, 5⟩ ∧ (⟨3, 4⟩ : Position).inBounds ∧
          (Board.read Board.init ⟨3, 4⟩).color = some Color.white.inverse))) :=
  ⟨by decide, pawn_can_move_to_iff Color.white Board.init ⟨1, 4⟩ ⟨3, 4⟩ (by decide)⟩

end Chess
